import Mathlib

/-!
Verification of the DeepLearning repository's hand-written procedures: the
generic training loop `train`, the learning-rate range test `find_lr`, the
image check `check_image`, and the transfer-learning parameter freezing loop,
as they appear in the transfer-learning notebook (and, for `train` and
`check_image`, identically in the CNN_CIFAR-10 notebook).

The embedding is shallow: the surrounding deep-learning framework (model
forward pass, loss function, gradient and optimizer state updates, softmax)
is abstracted as an environment of pure state-transition functions over an
opaque state type `σ`; tensors of per-sample class scores are lists of rows
of rationals; Python float arithmetic is modelled by exact rational (or, for
learning rates, ordered-field) arithmetic.  Loops become structural
recursion, and the training loop additionally records a trace of the
side-effecting steps it performs, in order, so that statements about the
order and number of steps can be made.
-/

namespace SpecDL

/-- A mini-batch as yielded by a data loader: `inputs` are the samples
(`inputs.size(0)` is `inputs.length`) and `targets` the per-sample class
indices. -/
structure Batch (ι : Type) where
  inputs : List ι
  targets : List ℕ

/-- A data loader: its list of batches (iteration order) together with
`len(loader.dataset)`, the size of the underlying dataset. -/
structure Loader (ι : Type) where
  batches : List (Batch ι)
  datasetLen : ℕ

/-- The framework operations `train` calls, as pure state transitions on an
opaque model-plus-optimizer state `σ`.  `forward` returns one row of class
scores per sample; `loss_fn` returns the scalar loss of outputs against
targets; `backward` records gradients for a loss value; `opt_step` is
`optimizer.step()`; `zero_grad` is `optimizer.zero_grad()`; `train_mode` and
`eval_mode` are `model.train()` / `model.eval()`; `softmax` is the row-wise
`F.softmax`. -/
structure TrainEnv (σ ι : Type) where
  zero_grad : σ → σ
  forward : σ → List ι → List (List ℚ)
  loss_fn : List (List ℚ) → List ℕ → ℚ
  backward : σ → ℚ → σ
  opt_step : σ → σ
  train_mode : σ → σ
  eval_mode : σ → σ
  softmax : List ℚ → List ℚ

/-- One observable step of the training phase of `train`, used to record the
order in which the loop acts on each batch. -/
inductive TraceEv (ι : Type) where
  | train_mode : TraceEv ι
  | zero_grad : TraceEv ι
  | forward (inputs : List ι) : TraceEv ι
  | loss_comp (loss : ℚ) : TraceEv ι
  | backward (loss : ℚ) : TraceEv ι
  | opt_step : TraceEv ι
  | accum (loss : ℚ) (cnt : ℕ) : TraceEv ι
  | eval_mode : TraceEv ι
deriving DecidableEq

/-- The metrics `train` prints at the end of each epoch:
`print('Epoch: {}, Training Loss: {:.2f}, Validation Loss: {:.2f},
accuracy = {:.2f}'.format(epoch, training_loss, valid_loss,
num_correct / num_examples))`. -/
structure MetricsLine where
  epoch : ℕ
  training_loss : ℚ
  valid_loss : ℚ
  accuracy : ℚ
deriving DecidableEq

/-- Index of the first maximal entry of a row of scores
(`torch.max(·, dim=1)[1]` per row); auxiliary accumulator form. -/
def idxOfMaxAux : List ℚ → ℕ → ℕ → ℚ → ℕ
  | [], _, bi, _ => bi
  | x :: rest, i, bi, bv =>
      if bv < x then idxOfMaxAux rest (i + 1) i x else idxOfMaxAux rest (i + 1) bi bv

/-- Index of the first maximal entry of a row of scores. -/
def idxOfMax : List ℚ → ℕ
  | [] => 0
  | x :: rest => idxOfMaxAux rest 1 0 x

/-- The inner training loop of `train` (lines 104-113 of the notebook):
for each batch, `optimizer.zero_grad()`, `outputs = model(inputs)`,
`loss = loss_fn(outputs, targets)`, `loss.backward()`, `optimizer.step()`,
`training_loss += loss.data.item() * inputs.size(0)`.  Returns the final
state, the accumulated running training loss, and the trace of steps. -/
def trainLoop (E : TrainEnv σ ι) : σ → ℚ → List (Batch ι) → σ × ℚ × List (TraceEv ι)
  | s, tl, [] => (s, tl, [])
  | s, tl, b :: rest =>
      let s1 := E.zero_grad s
      let outputs := E.forward s1 b.inputs
      let loss := E.loss_fn outputs b.targets
      let s2 := E.backward s1 loss
      let s3 := E.opt_step s2
      let r := trainLoop E s3 (tl + loss * (b.inputs.length : ℚ)) rest
      (r.1, r.2.1,
        TraceEv.zero_grad :: TraceEv.forward b.inputs :: TraceEv.loss_comp loss ::
          TraceEv.backward loss :: TraceEv.opt_step ::
          TraceEv.accum loss b.inputs.length :: r.2.2)

/-- The validation loop of `train` (lines 119-128): accumulates
`valid_loss += loss * inputs.size(0)`,
`correct = torch.eq(torch.max(F.softmax(outputs), dim=1)[1], targets)`,
`num_correct += torch.sum(correct).item()`,
`num_examples += correct.shape[0]`.  The model state does not change (no
backward pass, no optimizer step). -/
def valLoop (E : TrainEnv σ ι) (s : σ) : ℚ → ℕ → ℕ → List (Batch ι) → ℚ × ℕ × ℕ
  | vl, nc, ne, [] => (vl, nc, ne)
  | vl, nc, ne, b :: rest =>
      let outputs := E.forward s b.inputs
      let loss := E.loss_fn outputs b.targets
      let correct := List.zipWith (fun p t => decide (p = t))
        (outputs.map fun row => idxOfMax (E.softmax row)) b.targets
      valLoop E s (vl + loss * (b.inputs.length : ℚ)) (nc + correct.count true)
        (ne + correct.length) rest

/-- One epoch of `train`: `model.train()`, the training loop over
`train_loader` starting from `training_loss = 0.0`, then
`training_loss /= len(train_loader.dataset)`, `model.eval()`, the validation
loop over `val_loader`, `valid_loss /= len(val_loader.dataset)`, and the
printed metrics line.  Returns the state after the epoch, the metrics line,
and the trace of training-phase steps. -/
def runEpoch (E : TrainEnv σ ι) (tload vload : Loader ι) (epoch : ℕ) (s : σ) :
    σ × MetricsLine × List (TraceEv ι) :=
  let s0 := E.train_mode s
  let r := trainLoop E s0 0 tload.batches
  let training_loss := r.2.1 / (tload.datasetLen : ℚ)
  let s1 := E.eval_mode r.1
  let v := valLoop E s1 0 0 0 vload.batches
  let valid_loss := v.1 / (vload.datasetLen : ℚ)
  (s1, ⟨epoch, training_loss, valid_loss, (v.2.1 : ℚ) / (v.2.2 : ℚ)⟩,
    (TraceEv.train_mode :: r.2.2) ++ [TraceEv.eval_mode])

/-- The epoch loop of `train`, recursing on the number of remaining epochs
while carrying the current epoch index (`for epoch in range(epochs)`).
Collects the printed metrics lines in order and the full trace. -/
def trainGo (E : TrainEnv σ ι) (tload vload : Loader ι) :
    σ → ℕ → ℕ → σ × List MetricsLine × List (TraceEv ι)
  | s, _, 0 => (s, [], [])
  | s, i, n + 1 =>
      let r := runEpoch E tload vload i s
      let rest := trainGo E tload vload r.1 (i + 1) n
      (rest.1, r.2.1 :: rest.2.1, r.2.2 ++ rest.2.2)

/-- The `train` function of the notebooks (transfer-learning notebook lines
98-132; identically in CNN_CIFAR-10): run `epochs` epochs, each with a
training pass over `train_loader` and a validation pass over `val_loader`,
printing one metrics line per epoch. -/
def train (E : TrainEnv σ ι) (s : σ) (tload vload : Loader ι) (epochs : ℕ) :
    σ × List MetricsLine × List (TraceEv ι) :=
  trainGo E tload vload s 0 epochs

/-- The framework operations `find_lr` calls.  In addition to those shared
with `train`: `set_lr` is `optimizer.param_groups[0]["lr"] = lr`, and
`rt x n` is Python's `x ** (1 / n)` for an integer `n`, the real root that
defines `update_step`; the learning rates themselves live in a linearly
ordered field `K`.  The theorems characterize `rt` at the point where the
code uses it by the root equation it satisfies over the reals. -/
structure LrEnv (σ ι K : Type) where
  zero_grad : σ → σ
  forward : σ → List ι → List (List ℚ)
  loss_fn : List (List ℚ) → List ℕ → ℚ
  backward : σ → ℚ → σ
  opt_step : σ → σ
  set_lr : σ → K → σ
  rt : K → ℤ → K

/-- The batch loop of `find_lr` (lines 303-332 of the notebook).  Arguments
mirror the Python locals: state, current `lr`, `best_loss`, `batch_num`,
`log_lrs`, `losses`, remaining batches.  Returns `(log_lrs, losses, early,
batch_num)` where `early` records whether the loop returned through the
`# crash out if loss explodes` branch and `batch_num` is the number of
batches processed at exit. -/
def findLrLoop [LinearOrderedField K] (E : LrEnv σ ι K) (update_step : K) :
    σ → K → ℚ → ℕ → List K → List ℚ → List (Batch ι) →
      List K × List ℚ × Bool × ℕ
  | _, _, _, bn, lrs, lss, [] => (lrs, lss, false, bn)
  | s, lr, best, bn, lrs, lss, data :: rest =>
      let bn1 := bn + 1
      let s1 := E.zero_grad s
      let outputs := E.forward s1 data.inputs
      let loss := E.loss_fn outputs data.targets
      if bn1 > 1 ∧ loss > 4 * best then (lrs, lss, true, bn1)
      else
        let best1 := if loss < best ∨ bn1 = 1 then loss else best
        let lss1 := lss ++ [loss]
        let lrs1 := lrs ++ [lr]
        let s2 := E.opt_step (E.backward s1 loss)
        let lr1 := lr * update_step
        let s3 := E.set_lr s2 lr1
        findLrLoop E update_step s3 lr1 best1 bn1 lrs1 lss1 rest

/-- The `update_step` of `find_lr`:
`(final_value / init_value) ** (1 / number_in_epoch)` with
`number_in_epoch = len(train_loader) - 1`. -/
def updateStepOf [LinearOrderedField K] (E : LrEnv σ ι K)
    (train_loader : List (Batch ι)) (init_value final_value : K) : K :=
  E.rt (final_value / init_value) ((train_loader.length : ℤ) - 1)

/-- The initialization and batch loop of `find_lr`: `lr = init_value`,
`optimizer.param_groups[0]["lr"] = lr`, `best_loss = 0.0`, `batch_num = 0`,
`losses = []`, `log_lrs = []`, then the loop over `train_loader`. -/
def findLrRun [LinearOrderedField K] (E : LrEnv σ ι K) (s : σ)
    (train_loader : List (Batch ι)) (init_value final_value : K) :
    List K × List ℚ × Bool × ℕ :=
  findLrLoop E (updateStepOf E train_loader init_value final_value)
    (E.set_lr s init_value) init_value 0 0 [] [] train_loader

/-- Python's slice `l[10:-5]`: everything except the first 10 and the last 5
elements. -/
def slice10m5 (l : List α) : List α := (l.drop 10).take (l.length - 15)

/-- The `find_lr` function of the notebook (lines 292-337).  `none` models
the `ZeroDivisionError` raised by `1 / number_in_epoch` when
`number_in_epoch = len(train_loader) - 1` is zero; otherwise the recorded
`(log_lrs, losses)` are returned, both cut by `[10:-5]` when more than 20
entries were recorded (the same slicing applies on the early
`loss exploded` return and the end-of-epoch return). -/
def find_lr [LinearOrderedField K] (E : LrEnv σ ι K) (s : σ)
    (train_loader : List (Batch ι)) (init_value final_value : K) :
    Option (List K × List ℚ) :=
  if ((train_loader.length : ℤ) - 1) = 0 then none
  else
    let r := findLrRun E s train_loader init_value final_value
    if r.1.length > 20 then some (slice10m5 r.1, slice10m5 r.2.1)
    else some (r.1, r.2.1)

/-- The `check_image` helper (lines 141-146): `try: im = Image.open(path);
return True except: return False`.  `Image.open` is modelled as an abstract
`Except`-valued function: `Except.error` is any raised exception, which the
bare `except` catches. -/
def check_image (openImage : P → Except Err Img) (path : P) : Bool :=
  match openImage path with
  | Except.ok _ => true
  | Except.error _ => false

/-- A named parameter of the pretrained model, as produced by
`transfer_model.named_parameters()`: its dotted name and its
`requires_grad` flag. -/
structure Param where
  name : String
  requires_grad : Bool

/-- `pat` starts the character list `s`. -/
def startsWithCL : List Char → List Char → Bool
  | [], _ => true
  | _ :: _, [] => false
  | p :: ps, c :: cs => p = c && startsWithCL ps cs

/-- `pat` occurs as a contiguous substring of `s` (character lists). -/
def containsCL (pat : List Char) : List Char → Bool
  | [] => startsWithCL pat []
  | c :: cs => startsWithCL pat (c :: cs) || containsCL pat cs

/-- Python's `sub in s` substring test on strings. -/
def containsSubstr (s sub : String) : Bool := containsCL sub.data s.data

/-- The body of the freezing loop (lines 65-67):
`if ("bn" not in name): param.requires_grad = False`. -/
def freezeStep (p : Param) : Param :=
  if containsSubstr p.name "bn" = false then { p with requires_grad := false } else p

/-- The freezing loop over `transfer_model.named_parameters()`. -/
def freezeLoop (params : List Param) : List Param := params.map freezeStep

/-- The parameters of the replacement classifier head assigned afterwards
(lines 85-89): `transfer_model.fc = nn.Sequential(nn.Linear(in, 500),
nn.ReLU(), nn.Dropout(), nn.Linear(500, 2))`.  The two `nn.Linear` modules
are the only ones with parameters, and freshly constructed PyTorch modules
have `requires_grad = True`. -/
def replacementFc : List Param :=
  [{ name := "fc.0.weight", requires_grad := true },
   { name := "fc.0.bias", requires_grad := true },
   { name := "fc.3.weight", requires_grad := true },
   { name := "fc.3.bias", requires_grad := true }]

/-! Spec-side descriptions of what the loops do, stated the way the spec and
the claims phrase them: one six-step block per batch in loader order, a
sample-count-weighted loss sum, and per-sample correctness counts.  The
theorems below prove the loop implementations equal to these. -/

/-- The claimed per-batch step sequence of the training loop: zero the
gradients, compute the outputs, compute the loss, run the backward pass,
take an optimizer step, and accumulate `loss * sample_count`. -/
def batchStepSpec (b : Batch ι) (loss : ℚ) : List (TraceEv ι) :=
  [TraceEv.zero_grad, TraceEv.forward b.inputs, TraceEv.loss_comp loss,
   TraceEv.backward loss, TraceEv.opt_step, TraceEv.accum loss b.inputs.length]

/-- The loss value computed for each batch of an epoch's training pass, in
loader order, starting from model state `s`. -/
def batchLosses (E : TrainEnv σ ι) : σ → List (Batch ι) → List ℚ
  | _, [] => []
  | s, b :: rest =>
      let s1 := E.zero_grad s
      let loss := E.loss_fn (E.forward s1 b.inputs) b.targets
      loss :: batchLosses E (E.opt_step (E.backward s1 loss)) rest

/-- The model state after an epoch's training pass over the given batches. -/
def stepStates (E : TrainEnv σ ι) : σ → List (Batch ι) → σ
  | s, [] => s
  | s, b :: rest =>
      let s1 := E.zero_grad s
      let loss := E.loss_fn (E.forward s1 b.inputs) b.targets
      stepStates E (E.opt_step (E.backward s1 loss)) rest

/-- The state an epoch of `train` ends in (and in which its validation pass
runs): train mode, the training pass, then eval mode. -/
def epochEndState (E : TrainEnv σ ι) (tload : Loader ι) (s : σ) : σ :=
  E.eval_mode (stepStates E (E.train_mode s) tload.batches)

/-- The claimed trace of one epoch: `model.train()`, then for every batch of
`train_loader` in order its six-step block, then `model.eval()`. -/
def epochTraceSpec (E : TrainEnv σ ι) (tload : Loader ι) (s : σ) : List (TraceEv ι) :=
  (TraceEv.train_mode ::
    (tload.batches.zip (batchLosses E (E.train_mode s) tload.batches)).flatMap
      (fun p => batchStepSpec p.1 p.2)) ++ [TraceEv.eval_mode]

/-- The claimed trace of a whole `train` call: `epochs` epoch traces in
sequence, each starting from the state the previous epoch ended in. -/
def traceSpec (E : TrainEnv σ ι) (tload : Loader ι) : σ → ℕ → List (TraceEv ι)
  | _, 0 => []
  | s, n + 1 => epochTraceSpec E tload s ++ traceSpec E tload (epochEndState E tload s) n

/-- The metrics lines a `train` call prints: one per epoch, epoch `i`'s line
produced by `runEpoch` from the state epoch `i - 1` ended in. -/
def linesSpec (E : TrainEnv σ ι) (tload vload : Loader ι) : σ → ℕ → ℕ → List MetricsLine
  | _, _, 0 => []
  | s, i, n + 1 =>
      (runEpoch E tload vload i s).2.1 ::
        linesSpec E tload vload (epochEndState E tload s) (i + 1) n

/-- The sample-count-weighted loss sum `Σ loss_i * size_i` over an epoch's
batches. -/
def weightedLossSum (losses : List ℚ) (sizes : List ℕ) : ℚ :=
  ((losses.zip sizes).map fun p => p.1 * (p.2 : ℚ)).sum

/-- The weighted validation loss sum over the validation batches at a fixed
model state. -/
def valLossSum (E : TrainEnv σ ι) (s : σ) (bs : List (Batch ι)) : ℚ :=
  (bs.map fun b =>
    E.loss_fn (E.forward s b.inputs) b.targets * (b.inputs.length : ℚ)).sum

/-- Per-sample correctness of one validation batch: whether the predicted
class, the index of the maximum of the softmaxed output row, equals the
target. -/
def valCorrect (E : TrainEnv σ ι) (s : σ) (b : Batch ι) : List Bool :=
  List.zipWith (fun p t => decide (p = t))
    ((E.forward s b.inputs).map fun row => idxOfMax (E.softmax row)) b.targets

/-- Total number of correctly classified validation samples. -/
def numCorrectSpec (E : TrainEnv σ ι) (s : σ) (bs : List (Batch ι)) : ℕ :=
  (bs.map fun b => (valCorrect E s b).count true).sum

/-- Total number of validation samples seen. -/
def numExamplesSpec (E : TrainEnv σ ι) (s : σ) (bs : List (Batch ι)) : ℕ :=
  (bs.map fun b => (valCorrect E s b).length).sum

/-- The training loop is the spec-side description: final state `stepStates`,
running loss increased by the weighted loss sum, and one six-step block per
batch, in loader order. -/
theorem trainLoop_eq (E : TrainEnv σ ι) (s : σ) (tl : ℚ) (bs : List (Batch ι)) :
    trainLoop E s tl bs =
      (stepStates E s bs,
       tl + weightedLossSum (batchLosses E s bs) (bs.map fun b => b.inputs.length),
       (bs.zip (batchLosses E s bs)).flatMap fun p => batchStepSpec p.1 p.2) := by
  induction bs generalizing s tl with
  | nil => simp [trainLoop, stepStates, batchLosses, weightedLossSum]
  | cons b rest ih =>
      simp only [trainLoop, stepStates, batchLosses, weightedLossSum, List.map_cons,
        List.zip_cons_cons, List.flatMap_cons, List.sum_cons, batchStepSpec, ih,
        Prod.mk.injEq, List.cons_append, List.nil_append]
      refine ⟨by trivial, by ring, by trivial⟩

/-- Every batch of the loader gets a loss value: the per-batch loss list has
one entry per batch. -/
theorem batchLosses_length (E : TrainEnv σ ι) (s : σ) (bs : List (Batch ι)) :
    (batchLosses E s bs).length = bs.length := by
  induction bs generalizing s with
  | nil => rfl
  | cons b rest ih => simp [batchLosses, ih]

/-- The validation loop is the spec-side description: it adds the weighted
validation loss sum, the count of correctly classified samples, and the count
of samples seen. -/
theorem valLoop_eq (E : TrainEnv σ ι) (s : σ) (vl : ℚ) (nc ne : ℕ)
    (bs : List (Batch ι)) :
    valLoop E s vl nc ne bs =
      (vl + valLossSum E s bs, nc + numCorrectSpec E s bs,
       ne + numExamplesSpec E s bs) := by
  induction bs generalizing vl nc ne with
  | nil => simp [valLoop, valLossSum, numCorrectSpec, numExamplesSpec]
  | cons b rest ih =>
      simp only [valLoop, valLossSum, numCorrectSpec, numExamplesSpec, List.map_cons,
        List.sum_cons, ih, valCorrect, Prod.mk.injEq]
      refine ⟨by ring, by omega, by omega⟩

/-- One epoch of `train`, described spec-side: it ends in `epochEndState`,
prints the line with the weighted-average training loss, the weighted-average
validation loss and the accuracy `num_correct / num_examples`, and its
training-phase trace is `epochTraceSpec`. -/
theorem runEpoch_eq (E : TrainEnv σ ι) (tload vload : Loader ι) (i : ℕ) (s : σ) :
    runEpoch E tload vload i s =
      (epochEndState E tload s,
       { epoch := i,
         training_loss :=
           weightedLossSum (batchLosses E (E.train_mode s) tload.batches)
             (tload.batches.map fun b => b.inputs.length) / (tload.datasetLen : ℚ),
         valid_loss :=
           valLossSum E (epochEndState E tload s) vload.batches / (vload.datasetLen : ℚ),
         accuracy :=
           (numCorrectSpec E (epochEndState E tload s) vload.batches : ℚ) /
             (numExamplesSpec E (epochEndState E tload s) vload.batches : ℚ) },
       epochTraceSpec E tload s) := by
  simp only [runEpoch, trainLoop_eq, valLoop_eq, epochEndState, epochTraceSpec,
    zero_add, Prod.mk.injEq, List.cons_append, List.nil_append]

/-- The epoch loop of `train`, described spec-side: it prints the lines
`linesSpec` and its trace is `traceSpec`. -/
theorem trainGo_eq (E : TrainEnv σ ι) (tload vload : Loader ι) (s : σ) (i n : ℕ) :
    (trainGo E tload vload s i n).2.1 = linesSpec E tload vload s i n ∧
    (trainGo E tload vload s i n).2.2 = traceSpec E tload s n := by
  induction n generalizing s i with
  | zero => exact ⟨rfl, rfl⟩
  | succ n ih =>
      simp only [trainGo, linesSpec, traceSpec, runEpoch_eq]
      exact ⟨by rw [(ih _ _).1], by rw [(ih _ _).2]⟩

/-- The epoch indices of the printed lines: line `j` of `linesSpec` starting
at index `i` carries epoch `i + j`, so the lines carry `i, i+1, ...`. -/
theorem linesSpec_map_epoch (E : TrainEnv σ ι) (tload vload : Loader ι)
    (s : σ) (i n : ℕ) :
    (linesSpec E tload vload s i n).map MetricsLine.epoch = List.range' i n := by
  induction n generalizing s i with
  | zero => rfl
  | succ n ih => simp [linesSpec, runEpoch_eq, List.range', ih]

/-- Prepending the start value to a geometric list with ratio `u` and first
value `lr * u` gives the geometric list with first value `lr`, one longer. -/
theorem geomList_cons [LinearOrderedField K] (lr u : K) (n : ℕ) :
    lr :: (List.range n).map (fun i => lr * u * u ^ i) =
      (List.range (n + 1)).map (fun i => lr * u ^ i) := by
  rw [List.range_succ_eq_map, List.map_cons, List.map_map]
  simp only [pow_zero, mul_one, Function.comp_def]
  congr 1
  refine List.map_congr_left fun i _ => ?_
  rw [pow_succ]
  ring

/-- If the `find_lr` loop does not take the loss-exploded return, it appends
to the accumulator one recorded learning rate per remaining batch, the
geometric sequence `lr, lr * u, lr * u ^ 2, ...`. -/
theorem findLrLoop_not_early_lrs [LinearOrderedField K] (E : LrEnv σ ι K) (u : K)
    (bs : List (Batch ι)) :
    ∀ (s : σ) (lr : K) (best : ℚ) (bn : ℕ) (lrs : List K) (lss : List ℚ),
    (findLrLoop E u s lr best bn lrs lss bs).2.2.1 = false →
    (findLrLoop E u s lr best bn lrs lss bs).1 =
      lrs ++ (List.range bs.length).map (fun i => lr * u ^ i) := by
  induction bs with
  | nil => intro s lr best bn lrs lss _h; simp [findLrLoop]
  | cons b rest ih =>
      intro s lr best bn lrs lss h
      simp only [findLrLoop] at h ⊢
      by_cases hc : bn + 1 > 1 ∧
          E.loss_fn (E.forward (E.zero_grad s) b.inputs) b.targets > 4 * best
      · rw [if_pos hc] at h
        simp at h
      · rw [if_neg hc] at h ⊢
        rw [ih _ _ _ _ _ _ h, List.append_assoc, List.singleton_append,
          geomList_cons, List.length_cons]

/-- The `find_lr` loop processes at most as many batches as remain. -/
theorem findLrLoop_steps_le [LinearOrderedField K] (E : LrEnv σ ι K) (u : K)
    (bs : List (Batch ι)) :
    ∀ (s : σ) (lr : K) (best : ℚ) (bn : ℕ) (lrs : List K) (lss : List ℚ),
    (findLrLoop E u s lr best bn lrs lss bs).2.2.2 ≤ bn + bs.length := by
  induction bs with
  | nil => intro s lr best bn lrs lss; simp [findLrLoop]
  | cons b rest ih =>
      intro s lr best bn lrs lss
      simp only [findLrLoop, List.length_cons]
      split
      · simp
      · exact le_trans (ih _ _ _ _ _ _) (by omega)

/-- When the loss-exploded return is not taken, the `find_lr` loop processes
every remaining batch: its only early exit is the explosion branch. -/
theorem findLrLoop_steps_of_not_early [LinearOrderedField K] (E : LrEnv σ ι K)
    (u : K) (bs : List (Batch ι)) :
    ∀ (s : σ) (lr : K) (best : ℚ) (bn : ℕ) (lrs : List K) (lss : List ℚ),
    (findLrLoop E u s lr best bn lrs lss bs).2.2.1 = false →
    (findLrLoop E u s lr best bn lrs lss bs).2.2.2 = bn + bs.length := by
  induction bs with
  | nil => intro s lr best bn lrs lss _h; simp [findLrLoop]
  | cons b rest ih =>
      intro s lr best bn lrs lss h
      simp only [findLrLoop, List.length_cons] at h ⊢
      by_cases hc : bn + 1 > 1 ∧
          E.loss_fn (E.forward (E.zero_grad s) b.inputs) b.targets > 4 * best
      · rw [if_pos hc] at h
        simp at h
      · rw [if_neg hc] at h ⊢
        rw [ih _ _ _ _ _ _ h]
        omega

/-- The two recorded lists of the `find_lr` loop keep equal lengths on every
exit path, the explosion return included. -/
theorem findLrLoop_len_eq [LinearOrderedField K] (E : LrEnv σ ι K) (u : K)
    (bs : List (Batch ι)) :
    ∀ (s : σ) (lr : K) (best : ℚ) (bn : ℕ) (lrs : List K) (lss : List ℚ),
    lrs.length = lss.length →
    (findLrLoop E u s lr best bn lrs lss bs).1.length =
      (findLrLoop E u s lr best bn lrs lss bs).2.1.length := by
  induction bs with
  | nil => intro s lr best bn lrs lss h; simpa [findLrLoop] using h
  | cons b rest ih =>
      intro s lr best bn lrs lss h
      simp only [findLrLoop]
      split
      · simpa using h
      · exact ih _ _ _ _ _ _ (by simp [h])

/-- A `find_lr` call on a loader of any length other than one returns the
recorded lists, sliced by `[10:-5]` exactly when more than 20 entries were
recorded. -/
theorem find_lr_eq_some [LinearOrderedField K] (E : LrEnv σ ι K) (s : σ)
    (loader : List (Batch ι)) (init final : K) (h : loader.length ≠ 1) :
    find_lr E s loader init final =
      (if (findLrRun E s loader init final).1.length > 20
       then some (slice10m5 (findLrRun E s loader init final).1,
                  slice10m5 (findLrRun E s loader init final).2.1)
       else some ((findLrRun E s loader init final).1,
                  (findLrRun E s loader init final).2.1)) := by
  have h2 : ((loader.length : ℤ) - 1) ≠ 0 := by omega
  rw [find_lr, if_neg h2]

/-- The length of the `[10:-5]` slice depends only on the input length. -/
theorem slice10m5_length (l : List α) :
    (slice10m5 l).length = min (l.length - 15) (l.length - 10) := by
  simp [slice10m5]

/-- The recorded learning-rate and loss lists of a `find_lr` run have equal
length on every exit path. -/
theorem findLrRun_len_eq [LinearOrderedField K] (E : LrEnv σ ι K) (s : σ)
    (loader : List (Batch ι)) (init final : K) :
    (findLrRun E s loader init final).1.length =
      (findLrRun E s loader init final).2.1.length :=
  findLrLoop_len_eq E _ loader _ _ _ _ _ _ rfl

/-! Concrete instances used to evaluate the theorems on explicit inputs:
a trivial model state `Unit`, trivial inputs, a loss function that reads the
loss value off the batch's target list length, and a root function that
returns `2` (so that with `init_value = 1`, `final_value = 4` and three
batches the root equation `2 ^ 2 = 4 / 1` holds). -/

/-- A concrete `find_lr` environment over state `Unit` and rate field `ℚ`. -/
def lrEnvC : LrEnv Unit Unit ℚ where
  zero_grad := fun s => s
  forward := fun _ _ => []
  loss_fn := fun _ targets => (targets.length : ℚ)
  backward := fun s _ => s
  opt_step := fun s => s
  set_lr := fun s _ => s
  rt := fun _ _ => 2

/-- Three batches with loss `0` each: no early exit, rates `1, 2, 4`. -/
def loaderSmooth : List (Batch Unit) :=
  [{ inputs := [], targets := [] }, { inputs := [], targets := [] },
   { inputs := [], targets := [] }]

/-- Two batches with losses `0` then `1 > 4 * 0`: the second batch takes the
loss-exploded return. -/
def loaderExplode : List (Batch Unit) :=
  [{ inputs := [], targets := [] }, { inputs := [], targets := [0] }]

/-- A loader with exactly one batch: `number_in_epoch = 0`. -/
def loaderSingle : List (Batch Unit) := [{ inputs := [], targets := [] }]

/-- C1: for every model, optimizer, loss function and pair of loaders, `train`
runs exactly `epochs` epochs (one printed line each); its training-phase trace
is exactly, per epoch, `model.train()` followed by one six-step block per
batch of `train_loader` in loader order — zero the gradients, compute the
outputs, compute the loss, run the backward pass, take an optimizer step, add
`loss * batch_sample_count` to the running loss — followed by `model.eval()`;
and the blocks cover every batch of the loader in order. -/
theorem train_runs_epochs_of_batch_steps (E : TrainEnv σ ι) (s : σ)
    (tload vload : Loader ι) (epochs : ℕ) :
    (train E s tload vload epochs).2.1.length = epochs ∧
    (train E s tload vload epochs).2.2 = traceSpec E tload s epochs ∧
    ∀ s2 : σ, (tload.batches.zip (batchLosses E s2 tload.batches)).map Prod.fst =
      tload.batches := by
  refine ⟨?_, (trainGo_eq E tload vload s 0 epochs).2, fun s2 => ?_⟩
  · have h := congrArg List.length (linesSpec_map_epoch E tload vload s 0 epochs)
    rw [train, (trainGo_eq E tload vload s 0 epochs).1]
    simpa using h
  · exact List.map_fst_zip _ _ (by rw [batchLosses_length])

/-- C4: the training loss each epoch reports is the sum over the epoch's
batches of `loss * sample_count`, divided by `len(train_loader.dataset)` —
the sample-count-weighted average per-sample loss — and the lines `train`
reports are exactly the per-epoch lines. -/
theorem train_loss_weighted_average (E : TrainEnv σ ι) (s : σ)
    (tload vload : Loader ι) (epochs : ℕ) :
    (train E s tload vload epochs).2.1 = linesSpec E tload vload s 0 epochs ∧
    ∀ (s2 : σ) (i : ℕ) (vload2 : Loader ι),
      (runEpoch E tload vload2 i s2).2.1.training_loss =
        weightedLossSum (batchLosses E (E.train_mode s2) tload.batches)
          (tload.batches.map fun b => b.inputs.length) / (tload.datasetLen : ℚ) := by
  refine ⟨(trainGo_eq E tload vload s 0 epochs).1, fun s2 i vload2 => ?_⟩
  rw [runEpoch_eq]

/-- C5: `train` prints exactly one metrics line per epoch, carrying the epoch
indices `0, 1, ..., epochs - 1` in order, and each epoch's line reports the
epoch index, that epoch's training and validation losses, and the accuracy
`num_correct / num_examples`, where `num_correct` counts the validation
samples whose predicted class — the index of the maximum of the softmaxed
output row — equals the target, and `num_examples` counts all validation
samples seen. -/
theorem train_prints_one_line_per_epoch (E : TrainEnv σ ι) (s : σ)
    (tload vload : Loader ι) (epochs : ℕ) :
    ((train E s tload vload epochs).2.1).map MetricsLine.epoch = List.range epochs ∧
    ∀ (s2 : σ) (i : ℕ),
      (runEpoch E tload vload i s2).2.1 =
        { epoch := i,
          training_loss :=
            weightedLossSum (batchLosses E (E.train_mode s2) tload.batches)
              (tload.batches.map fun b => b.inputs.length) / (tload.datasetLen : ℚ),
          valid_loss :=
            valLossSum E (epochEndState E tload s2) vload.batches /
              (vload.datasetLen : ℚ),
          accuracy :=
            (numCorrectSpec E (epochEndState E tload s2) vload.batches : ℚ) /
              (numExamplesSpec E (epochEndState E tload s2) vload.batches : ℚ) } := by
  constructor
  · rw [train, (trainGo_eq E tload vload s 0 epochs).1, linesSpec_map_epoch,
      List.range_eq_range']
  · intro s2 i
    rw [runEpoch_eq]

/-- C2: on a loader of at least two batches, with `update_step` the positive
`(len(train_loader) - 1)`-th root of `final_value / init_value` and no early
exit, the learning rates `find_lr` records form the geometric progression
`init_value * update_step ^ i` over the batches in order; the sequence is
strictly increasing when `final_value > init_value`, and the rate recorded
for the last batch is exactly `final_value`. -/
theorem find_lr_rates_geometric [LinearOrderedField K] (E : LrEnv σ ι K) (s : σ)
    (loader : List (Batch ι)) (init final : K)
    (hN : 2 ≤ loader.length)
    (hrpos : 0 < updateStepOf E loader init final)
    (hroot : updateStepOf E loader init final ^ (loader.length - 1) = final / init)
    (hinit : 0 < init)
    (hearly : (findLrRun E s loader init final).2.2.1 = false) :
    (findLrRun E s loader init final).1 =
      (List.range loader.length).map
        (fun i => init * updateStepOf E loader init final ^ i) ∧
    (init < final → (findLrRun E s loader init final).1.Pairwise (· < ·)) ∧
    (findLrRun E s loader init final).1.getLast? = some final := by
  have hlrs : (findLrRun E s loader init final).1 =
      (List.range loader.length).map
        (fun i => init * updateStepOf E loader init final ^ i) := by
    have h := findLrLoop_not_early_lrs E (updateStepOf E loader init final) loader
      (E.set_lr s init) init 0 0 [] [] hearly
    simpa [findLrRun] using h
  have huone : init < final → 1 < updateStepOf E loader init final := by
    intro hif
    have hne : loader.length - 1 ≠ 0 := by omega
    have h1 : 1 < updateStepOf E loader init final ^ (loader.length - 1) := by
      rw [hroot]
      exact (one_lt_div hinit).2 hif
    exact (one_lt_pow_iff_of_nonneg hrpos.le hne).1 h1
  refine ⟨hlrs, fun hif => ?_, ?_⟩
  · rw [hlrs]
    refine List.Pairwise.map _ (fun a b hab => ?_) (List.pairwise_lt_range _)
    exact mul_lt_mul_of_pos_left (pow_lt_pow_right₀ (huone hif) hab) hinit
  · rw [hlrs, List.getLast?_eq_getElem?]
    simp only [List.length_map, List.length_range]
    rw [List.getElem?_map, List.getElem?_range (by omega : loader.length - 1 < loader.length)]
    simp only [Option.map_some']
    rw [hroot, mul_comm, div_mul_cancel₀ _ hinit.ne']

/-- C3 (amended): `train` takes no early exit on any input — it always prints
its `epochs` lines and assigns a loss to every batch of every epoch — and the
only non-exception early return of `find_lr` is the loss-exploded branch:
whenever that branch is not taken, `find_lr` processes every batch of the
loader. -/
theorem train_no_early_exit_findLr_explosion_only [LinearOrderedField K]
    (E : TrainEnv σ ι) (s : σ) (tload vload : Loader ι) (epochs : ℕ)
    (E2 : LrEnv σ2 ι2 K) (s2 : σ2) (loader : List (Batch ι2)) (init final : K) :
    (train E s tload vload epochs).2.1.length = epochs ∧
    (∀ s3 : σ, (batchLosses E s3 tload.batches).length = tload.batches.length) ∧
    ((findLrRun E2 s2 loader init final).2.2.1 = false →
      (findLrRun E2 s2 loader init final).2.2.2 = loader.length) := by
  refine ⟨?_, fun s3 => batchLosses_length E s3 tload.batches, fun hne => ?_⟩
  · have h := congrArg List.length (linesSpec_map_epoch E tload vload s 0 epochs)
    rw [train, (trainGo_eq E tload vload s 0 epochs).1]
    simpa using h
  · have h := findLrLoop_steps_of_not_early E2 (updateStepOf E2 loader init final)
      loader (E2.set_lr s2 init) init 0 0 [] [] hne
    simpa [findLrRun] using h

/-- C3 counterexample: on an explicit input — two batches whose losses are
`0` and then `1 > 4 * best_loss` — `find_lr` takes the non-exception
loss-exploded branch and returns early, after the recorded lists hold only
the first batch's entries; so it is not the case that neither function ever
takes a non-exception failure-detecting early return. -/
theorem findLr_takes_early_return :
    (findLrRun lrEnvC () loaderExplode 1 4).2.2.1 = true ∧
    find_lr lrEnvC () loaderExplode 1 4 = some ([1], [0]) := by
  constructor
  · norm_num [findLrRun, findLrLoop, updateStepOf, lrEnvC, loaderExplode]
  · norm_num [find_lr, findLrRun, findLrLoop, updateStepOf, lrEnvC, loaderExplode,
      slice10m5]

/-- C7: on a loader of at least two batches `find_lr` returns a value (it
terminates, with no `ZeroDivisionError`), and it performs at most
`len(train_loader)` batch steps: the sweep is confined to a single epoch. -/
theorem find_lr_single_epoch [LinearOrderedField K] (E : LrEnv σ ι K) (s : σ)
    (loader : List (Batch ι)) (init final : K) (hN : 2 ≤ loader.length) :
    (find_lr E s loader init final).isSome = true ∧
    (findLrRun E s loader init final).2.2.2 ≤ loader.length := by
  constructor
  · rw [find_lr_eq_some E s loader init final (by omega)]
    split <;> rfl
  · have h := findLrLoop_steps_le E (updateStepOf E loader init final) loader
      (E.set_lr s init) init 0 0 [] []
    simpa [findLrRun] using h

/-- C8: whenever `find_lr` returns (loader length other than one), it returns
a pair of lists of equal length: both cut by dropping the first 10 and last 5
recorded entries when more than 20 were recorded, and both in full
otherwise — the same shape on the loss-exploded exit and the normal exit. -/
theorem find_lr_return_shape [LinearOrderedField K] (E : LrEnv σ ι K) (s : σ)
    (loader : List (Batch ι)) (init final : K) (h : loader.length ≠ 1) :
    ∃ p : List K × List ℚ, find_lr E s loader init final = some p ∧
      p.1.length = p.2.length ∧
      (20 < (findLrRun E s loader init final).1.length →
        p = (slice10m5 (findLrRun E s loader init final).1,
             slice10m5 (findLrRun E s loader init final).2.1)) ∧
      ((findLrRun E s loader init final).1.length ≤ 20 →
        p = ((findLrRun E s loader init final).1,
             (findLrRun E s loader init final).2.1)) := by
  have hlen := findLrRun_len_eq E s loader init final
  rw [find_lr_eq_some E s loader init final h]
  by_cases h20 : (findLrRun E s loader init final).1.length > 20
  · rw [if_pos h20]
    refine ⟨_, rfl, ?_, fun _ => rfl, fun hle => absurd h20 (by omega)⟩
    rw [slice10m5_length, slice10m5_length, hlen]
  · rw [if_neg h20]
    exact ⟨_, rfl, hlen, fun hgt => absurd hgt h20, fun _ => rfl⟩

/-- C10: `find_lr` divides by `number_in_epoch = len(train_loader) - 1` with
no guard: a loader with exactly one batch makes `1 / number_in_epoch` a
division by zero (`ZeroDivisionError`, modelled as `none`), while under the
precondition of at least two batches the divisor is nonzero and `find_lr`
returns a value. -/
theorem find_lr_division_guard [LinearOrderedField K] (E : LrEnv σ ι K) (s : σ)
    (loader : List (Batch ι)) (init final : K) :
    (loader.length = 1 → find_lr E s loader init final = none) ∧
    (2 ≤ loader.length → (find_lr E s loader init final).isSome = true) := by
  constructor
  · intro h1
    rw [find_lr, if_pos (by omega)]
  · intro h2
    rw [find_lr_eq_some E s loader init final (by omega)]
    split <;> rfl

/-- C9: `check_image` is total over the error model of image opening: for
every path it returns a Boolean — `true` exactly when `Image.open(path)`
succeeds, `false` exactly when `Image.open` raises any exception (the bare
`except` catches every error). -/
theorem check_image_total (openImage : P → Except Err Img) (path : P) :
    (check_image openImage path = true ↔ ∃ img, openImage path = Except.ok img) ∧
    (check_image openImage path = false ↔ ∃ e, openImage path = Except.error e) := by
  cases h : openImage path <;> simp [check_image, h]

/-- C6: if the pretrained parameters all start with `requires_grad = True`
(the PyTorch default for a loaded model), then after the freezing loop a
parameter has `requires_grad = False` exactly when its name does not contain
the substring `"bn"`; every parameter whose name contains `"bn"` keeps
`requires_grad = True`; and every parameter of the replacement classifier
head is trainable. -/
theorem freeze_only_non_bn (params : List Param)
    (hall : ∀ p ∈ params, p.requires_grad = true) :
    (∀ p ∈ freezeLoop params,
      (p.requires_grad = false ↔ containsSubstr p.name "bn" = false)) ∧
    (∀ p ∈ freezeLoop params,
      containsSubstr p.name "bn" = true → p.requires_grad = true) ∧
    (∀ p ∈ replacementFc, p.requires_grad = true) := by
  have key : ∀ p ∈ freezeLoop params,
      (p.requires_grad = false ↔ containsSubstr p.name "bn" = false) := by
    intro p hp
    obtain ⟨q, hq, rfl⟩ := List.mem_map.1 hp
    by_cases hbn : containsSubstr q.name "bn" = false
    · simp [freezeStep, hbn]
    · simp [freezeStep, hbn, hall q hq]
  refine ⟨key, fun p hp hbn => ?_, by decide⟩
  have h := (key p hp).mpr
  cases hrg : p.requires_grad with
  | true => rfl
  | false => rw [(key p hp).mp hrg] at hbn; cases hbn

/-! Concrete parameter list used to evaluate the freezing-loop theorem:
a selection of ResNet-50 parameter names, all initially trainable. -/

/-- Some pretrained ResNet-50 parameter names, all `requires_grad = True`. -/
def paramsPre : List Param :=
  [{ name := "conv1.weight", requires_grad := true },
   { name := "bn1.weight", requires_grad := true },
   { name := "bn1.bias", requires_grad := true },
   { name := "layer1.0.conv2.weight", requires_grad := true },
   { name := "layer1.0.bn2.weight", requires_grad := true },
   { name := "fc.weight", requires_grad := true }]

/-- Witness for C6 at the concrete parameter list `paramsPre`. -/
theorem freeze_only_non_bn_witness :
    (∀ p ∈ freezeLoop paramsPre,
      (p.requires_grad = false ↔ containsSubstr p.name "bn" = false)) ∧
    (∀ p ∈ freezeLoop paramsPre,
      containsSubstr p.name "bn" = true → p.requires_grad = true) ∧
    (∀ p ∈ replacementFc, p.requires_grad = true) :=
  freeze_only_non_bn paramsPre (by decide)

/-- Witness for C2 at the concrete environment: three zero-loss batches,
`init_value = 1`, `final_value = 4`, root `2` with `2 ^ 2 = 4 / 1`. -/
theorem find_lr_rates_geometric_witness :
    (findLrRun lrEnvC () loaderSmooth 1 4).1 =
      (List.range loaderSmooth.length).map
        (fun i => 1 * updateStepOf lrEnvC loaderSmooth 1 4 ^ i) ∧
    ((1:ℚ) < 4 → (findLrRun lrEnvC () loaderSmooth 1 4).1.Pairwise (· < ·)) ∧
    (findLrRun lrEnvC () loaderSmooth 1 4).1.getLast? = some 4 :=
  find_lr_rates_geometric lrEnvC () loaderSmooth 1 4 (by norm_num [loaderSmooth])
    (by norm_num [updateStepOf, lrEnvC])
    (by norm_num [updateStepOf, lrEnvC, loaderSmooth])
    (by norm_num)
    (by norm_num [findLrRun, findLrLoop, updateStepOf, lrEnvC, loaderSmooth])

/-- Witness for C7 at the concrete three-batch loader. -/
theorem find_lr_single_epoch_witness :
    (find_lr lrEnvC () loaderSmooth 1 4).isSome = true ∧
    (findLrRun lrEnvC () loaderSmooth 1 4).2.2.2 ≤ loaderSmooth.length :=
  find_lr_single_epoch lrEnvC () loaderSmooth 1 4 (by norm_num [loaderSmooth])

/-- Witness for C8 at the concrete three-batch loader (at most 20 recorded
entries, so the full lists are returned). -/
theorem find_lr_return_shape_witness :
    ∃ p : List ℚ × List ℚ, find_lr lrEnvC () loaderSmooth 1 4 = some p ∧
      p.1.length = p.2.length ∧
      (20 < (findLrRun lrEnvC () loaderSmooth 1 4).1.length →
        p = (slice10m5 (findLrRun lrEnvC () loaderSmooth 1 4).1,
             slice10m5 (findLrRun lrEnvC () loaderSmooth 1 4).2.1)) ∧
      ((findLrRun lrEnvC () loaderSmooth 1 4).1.length ≤ 20 →
        p = ((findLrRun lrEnvC () loaderSmooth 1 4).1,
             (findLrRun lrEnvC () loaderSmooth 1 4).2.1)) :=
  find_lr_return_shape lrEnvC () loaderSmooth 1 4 (by norm_num [loaderSmooth])

end SpecDL
